import Mathlib

/-!
Verification model of rfizzle/okta-collector.

Shallow embedding of the Go sources:
  * client/client.go : `makeRetryableHttpCall`, `conductRequest`, `getLogsRequest`,
    `GetLogs` (the paginated fetcher);
  * client/helpers.go : `getResultsOffset`, `convertLogsToString`;
  * main.go : `pollEvery` / `getEvents` (one poll cycle), the channel consumer
    (`handleMessage` loop).

HTTP traffic is modelled by an oracle: a list of per-attempt outcomes that the
modelled code consumes in order.  Machine integers stay small (status codes,
millisecond delays), so Nat is used directly.  Go `panic` is modelled as a
distinguished outcome, never as a Lean error.
-/

namespace OktaCollector

/-- Constants from client.go. -/
def initialBackoffMS : Nat := 1000

def maxBackoffMS : Nat := 32000

def backoffFactor : Nat := 2

def rateLimitHttpCode : Nat := 429

def limitConst : String := "1000"

/-- One outcome of `oktaClient.httpClient.Do` plus the subsequent body read:
`netError` models a transport error returned by `Do`; `response status readBody`
models a response with the given status code, where `readBody = none` models
`ioutil.ReadAll` failing and `some b` models the body read as `b`.
(`http.NewRequest` is modelled as always succeeding: the method is the literal
"GET" and the URL is built by `conductRequest` from well-formed parts.) -/
inductive HttpAttempt where
  | netError (msg : String)
  | response (status : Nat) (readBody : Option String)
deriving DecidableEq, Repr

/-- Result of `makeRetryableHttpCall` (client.go, current revision):
`netFail` is the transport-error return; `statusFail` is the
`HTTP response code` error for a status that is neither 200 nor 429;
`readFail` is a body-read error passed through; `success` returns the body;
`noResponse` marks the oracle running out while the loop would retry again. -/
inductive CallResult where
  | netFail (msg : String)
  | statusFail (status : Nat)
  | readFail (status : Nat)
  | success (status : Nat) (body : String)
  | noResponse
deriving DecidableEq, Repr

/-- client.go `makeRetryableHttpCall`, with the attempt oracle made explicit.
Returns the call result together with the list of slept backoff delays (ms),
in sleep order.  Mirrors the Go loop:
the Do-error / unexpected-status check first (returning immediately),
then `backoffMs > maxBackoffMS || status != 429` reads the body and returns,
otherwise sleep `backoffMs` and continue with `backoffMs * backoffFactor`. -/
def makeRetryableHttpCall (attempts : List HttpAttempt) (backoffMs : Nat) :
    CallResult × List Nat :=
  match attempts with
  | [] => (CallResult.noResponse, [])
  | a :: rest =>
    match a with
    | HttpAttempt.netError m => (CallResult.netFail m, [])
    | HttpAttempt.response status readBody =>
      if status ≠ 200 ∧ status ≠ rateLimitHttpCode then
        (CallResult.statusFail status, [])
      else if maxBackoffMS < backoffMs ∨ status ≠ rateLimitHttpCode then
        match readBody with
        | some b => (CallResult.success status b, [])
        | none => (CallResult.readFail status, [])
      else
        let r := makeRetryableHttpCall rest (backoffMs * backoffFactor)
        (r.1, backoffMs :: r.2)

/-! ### String scanning primitives (Go stdlib behaviour on char lists)

These model the exact pieces of `strings`, `regexp` and `net/url` that
helpers.go uses, as structural recursions over `List Char` so that every
definition evaluates inside the kernel. -/

/-- Go `strings.Contains`: `pat` occurs as a contiguous substring. -/
def containsSub (pat : List Char) : List Char → Bool
  | [] => pat.isEmpty
  | c :: rest => pat.isPrefixOf (c :: rest) || containsSub pat rest

/-- Go `strings.Split` with a one-character separator (helpers.go only ever
splits on single characters: "," in the header, and "#", "?", "&", "=" inside
`net/url` query handling). -/
def splitOnChar (sep : Char) : List Char → List (List Char)
  | [] => [[]]
  | c :: rest =>
    if c = sep then [] :: splitOnChar sep rest
    else
      match splitOnChar sep rest with
      | [] => [[c]]
      | h :: t => (c :: h) :: t

/-- Join pieces back with a one-character separator (inverse of `splitOnChar`,
used to keep everything after the first "?" or "=" intact). -/
def joinWith (sep : Char) : List (List Char) → List Char
  | [] => []
  | [x] => x
  | x :: y :: t => x ++ sep :: joinWith sep (y :: t)

/-- The literal tail of the helpers.go regex `\<(.*?)\>; rel="next"`. -/
def relNextLit : List Char := ">; rel=\"next\"".toList

/-- At a fixed match start (just past a "<"), the lazy capture `(.*?)`:
the characters up to the earliest following occurrence of `relNextLit`,
`none` when that literal never occurs. -/
def captureBefore (lit : List Char) : List Char → Option (List Char)
  | [] => none
  | c :: rest =>
    if lit.isPrefixOf (c :: rest) then some []
    else
      match captureBefore lit rest with
      | some cap => some (c :: cap)
      | none => none

/-- Go `regexp.FindStringSubmatch` for the pattern `\<(.*?)\>; rel="next"`,
returning capture group 1 (`match[1]`): the leftmost "<" from which the
literal `>; rel="next"` is later reached, `none` when there is no match
(Go returns a nil slice). -/
def findNextSubmatch : List Char → Option (List Char)
  | [] => none
  | c :: rest =>
    if c = '<' then
      match captureBefore relNextLit rest with
      | some cap => some cap
      | none => findNextSubmatch rest
    else findNextSubmatch rest

/-- `net/url`: the raw query of a parsed URL — what stands after the first "?"
of the part before the first "#".  (Percent-unescaping is modelled as the
identity: pagination cursors are opaque tokens.) -/
def urlQuery (u : List Char) : List Char :=
  let noFrag := (splitOnChar '#' u).headD []
  match splitOnChar '?' noFrag with
  | [] => []
  | [_] => []
  | _ :: rest => joinWith '?' rest

/-- `net/url` `Values.Get`-style lookup used by `nextUrl.Query()["after"]`:
split the raw query on "&", each segment cut at its first "=", empty keys
skipped; `none` models the nil slice for an absent key, `some v` the first
value. -/
def queryGet (key : List Char) : List (List Char) → Option (List Char)
  | [] => none
  | seg :: rest =>
    match splitOnChar '=' seg with
    | [] => queryGet key rest
    | k :: vparts =>
      if k = [] then queryGet key rest
      else if k = key then some (joinWith '=' vparts)
      else queryGet key rest

/-! ### helpers.go -/

/-- helpers.go `getResultsOffset`, over the response's `Header["Link"]` values.
`some cursor` models a normal return; `none` models the runtime panic that Go
hits at `match[1]` when `FindStringSubmatch` returned a nil slice (a value
containing "next" that splits into exactly two comma-parts whose second part
does not match the link regex). -/
def getResultsOffset (linkHeaders : List String) : Option String :=
  match linkHeaders with
  | [] => some ""
  | v :: rest =>
    if containsSub "next".toList v.toList then
      let s := splitOnChar ',' v.toList
      if s.length = 2 then
        match findNextSubmatch (s.getD 1 []) with
        | none => none
        | some u =>
          match queryGet "after".toList (splitOnChar '&' (urlQuery u)) with
          | none => some ""
          | some a => some (String.mk a)
      else some ""
    else getResultsOffset rest

/-- helpers.go `convertLogsToString`: re-serialize each decoded item, stopping
at the first marshal error.  The item type and `json.Marshal` are abstract. -/
def convertLogsToString (marshal : α → Except String String) :
    List α → Except String (List String)
  | [] => Except.ok []
  | v :: rest =>
    match marshal v with
    | Except.error e => Except.error e
    | Except.ok plain =>
      match convertLogsToString marshal rest with
      | Except.error e => Except.error e
      | Except.ok data => Except.ok (plain :: data)

/-! ### client.go — `GetLogs` / `getLogsRequest`

`conductRequest` builds `https://domain/api/v1/logs` with the url.Values
`params` encoded as the query string; the query parameters are therefore
modelled directly as a record, and each issued request is recorded in a
trace.  The network is an oracle: the outcome of each successive
`getLogsRequest` round-trip (transport/JSON layer) in order. -/

/-- The url.Values `params` that `GetLogs` builds and `getLogsRequest`
mutates: `limit`, `since`, `until` are set once at the start; `after`
(`none` = key absent) is set by `getLogsRequest` before each follow-up
request. -/
structure ReqParams where
  limit : String
  since : String
  untilQ : String
  after : Option String
deriving DecidableEq, Repr

/-- client.go `getLogsRequest` lines setting the cursor:
`if afterLink != "" { params.Set("after", afterLink) }`. -/
def setAfter (params : ReqParams) (afterLink : String) : ReqParams :=
  if afterLink = "" then params else { params with after := some afterLink }

/-- Oracle entry for one `getLogsRequest` round trip:
`httpErr` models `conductRequest` returning an error, `badJson` models
`json.Unmarshal` failing, and `page items linkHeaders` models a decoded JSON
array of items together with the response's `Link` header values. -/
inductive ReqOutcome (α : Type) where
  | httpErr (msg : String)
  | badJson (msg : String)
  | page (items : List α) (linkHeaders : List String)
deriving DecidableEq, Repr

/-- How a `GetLogs` call ends: `ok count` is the `(count, nil)` return;
`fail count msg` is an error return carrying the returned int (written `-1`
at every error site, as in the Go source); `panicked` marks the
`getResultsOffset` runtime panic (the call never returns); `outOfPages`
marks the oracle running out while another request was due. -/
inductive RunOutcome where
  | ok (count : Nat)
  | fail (count : Int) (msg : String)
  | panicked
  | outOfPages
deriving DecidableEq, Repr

/-- Everything observable about one `GetLogs` call: its outcome, the strings
sent to `resultsChannel` in send order, and the query parameters of each
issued request in request order. -/
structure LoopResult where
  outcome : RunOutcome
  emitted : List String
  requests : List ReqParams
deriving DecidableEq, Repr

/-- The `for hasNext` loop of client.go `GetLogs`, with `getLogsRequest`
inlined (its steps in source order: set `after` when `afterLink` is nonempty,
conduct the request, unmarshal, `convertLogsToString`, `getResultsOffset`);
back in `GetLogs`: push each event through `pretty.Ugly` onto the channel,
add `len(events)` to `count`, and continue exactly when the new cursor is
nonempty.  `marshal` abstracts `json.Marshal`, `ugly` abstracts
`pretty.Ugly`. -/
def getLogsLoop (marshal : α → Except String String) (ugly : String → String)
    (oracle : List (ReqOutcome α)) (params : ReqParams) (afterLink : String)
    (count : Nat) : LoopResult :=
  let sent := setAfter params afterLink
  match oracle with
  | [] => ⟨RunOutcome.outOfPages, [], [sent]⟩
  | o :: rest =>
    match o with
    | ReqOutcome.httpErr m =>
      ⟨RunOutcome.fail (-1) ("Error conducting request: " ++ m), [], [sent]⟩
    | ReqOutcome.badJson m =>
      ⟨RunOutcome.fail (-1) ("Error unmarshalling response body: " ++ m), [], [sent]⟩
    | ReqOutcome.page items linkHeaders =>
      match convertLogsToString marshal items with
      | Except.error e =>
        ⟨RunOutcome.fail (-1) ("Error converting logs to strings: " ++ e), [], [sent]⟩
      | Except.ok events =>
        match getResultsOffset linkHeaders with
        | none => ⟨RunOutcome.panicked, [], [sent]⟩
        | some c =>
          if c = "" then
            ⟨RunOutcome.ok (count + events.length), events.map ugly, [sent]⟩
          else
            let r := getLogsLoop marshal ugly rest sent c (count + events.length)
            ⟨r.outcome, events.map ugly ++ r.emitted, sent :: r.requests⟩

/-- client.go `GetLogs`: `count := 0`, `afterLink := ""`, params seeded with
`limit`, `since`, `until`, then the paged loop. -/
def GetLogs (marshal : α → Except String String) (ugly : String → String)
    (oracle : List (ReqOutcome α)) (startTime endTime : String) : LoopResult :=
  getLogsLoop marshal ugly oracle ⟨limitConst, startTime, endTime, none⟩ "" 0

/-! ### main.go — consumer and poll cycle -/

/-- main.go: `for message := range chnMessages { handleMessage(message, ...) }`
with `handleMessage` appending `message` to the temp file — the single
consumer drains the FIFO channel and writes each message in dequeue order.
Returns the temp file contents (one entry per `WriteLog`). -/
def consumeMessages (messages : List String) : List String :=
  messages.foldl (fun file m => file ++ [m]) []

/-- Oracle for one `pollEvery` iteration: the wall-clock `now` captured at the
start of `getEvents` (already RFC3339-formatted), the network oracle for the
cycle's `GetLogs` call, and whether `outputs.WriteToOutputs` and `os.Remove`
succeed. -/
structure CycleEnv (α : Type) where
  now : String
  oracle : List (ReqOutcome α)
  sinkWriteOk : Bool
  removeOk : Bool

/-- Observable effects of one `pollEvery` iteration.  `persisted` is the
checkpoint on disk when the iteration ends — or when the process dies
(`fatal = true`, reached by any `log.Fatalf`, panic, or hang, none of which
execute `state.Save`).  The Booleans record whether the drain wait ran to
completion, `tmpWriter.Rotate` was invoked, the Output Sink write succeeded,
and the temp file was removed. -/
structure CycleResult where
  persisted : String
  fatal : Bool
  drained : Bool
  rotated : Bool
  sinkWritten : Bool
  removed : Bool
deriving DecidableEq, Repr

/-- One iteration of main.go `pollEvery` (with `getEvents` inlined):
capture `now`, run `GetLogs(checkpoint, now)` (any error is `log.Fatalf`);
when `eventCount > 0` wait for the channel to drain, rotate the temp file
(error ignored), write it to the outputs (`log.Fatalf` on failure), remove it
(`log.Fatalf` on failure); finally set `LastPollTimestamp` to `now` and
`state.Save` it. -/
def pollCycle (marshal : α → Except String String) (ugly : String → String)
    (checkpoint : String) (env : CycleEnv α) : CycleResult :=
  let run := GetLogs marshal ugly env.oracle checkpoint env.now
  match run.outcome with
  | RunOutcome.ok eventCount =>
    if 0 < eventCount then
      if env.sinkWriteOk then
        if env.removeOk then ⟨env.now, false, true, true, true, true⟩
        else ⟨checkpoint, true, true, true, true, false⟩
      else ⟨checkpoint, true, true, true, false, false⟩
    else ⟨env.now, false, false, false, false, false⟩
  | _ => ⟨checkpoint, true, false, false, false, false⟩

/-! ### Runs of the paginated fetcher

A `PageSpec` describes one successfully decoded page of a run: its decoded
items, their re-serializations, the response's Link header values and the
cursor that `getResultsOffset` extracts from them. -/

structure PageSpec (α : Type) where
  items : List α
  evs : List String
  hdrs : List String
  cursor : String

/-- The query parameters of the successive requests a run issues, given the
initial `params`/`afterLink` and the cursors of the non-final pages (each
non-final page triggers exactly one follow-up request). -/
def requestTrace (params : ReqParams) (afterLink : String) :
    List (PageSpec α) → List ReqParams
  | [] => [setAfter params afterLink]
  | p :: rest =>
    setAfter params afterLink ::
      requestTrace (setAfter params afterLink) p.cursor rest

/-! ### Backoff arithmetic -/

lemma cap_iff (j : Nat) : maxBackoffMS < 1000 * 2 ^ j ↔ 6 ≤ j := by
  have hx : maxBackoffMS < 1000 * 2 ^ j ↔ 32 < 2 ^ j := by
    unfold maxBackoffMS
    omega
  rw [hx]
  constructor
  · intro h
    by_contra hc
    push_neg at hc
    have h2 : 2 ^ j ≤ 2 ^ 5 := Nat.pow_le_pow_right (by omega) (by omega)
    have h25 : (2 : Nat) ^ 5 = 32 := by norm_num
    omega
  · intro h
    have h2 : 2 ^ 6 ≤ 2 ^ j := Nat.pow_le_pow_right (by omega) h
    have h26 : (2 : Nat) ^ 6 = 64 := by norm_num
    omega

/-- Closed form of the retry loop on a run of 429 responses, for any point
`1000 * 2 ^ j` of the backoff schedule: it sleeps the scheduled delays while
they are at most the cap and returns the body of the first 429 encountered
once the delay has passed the cap. -/
lemma makeRetryableHttpCall_replicate429 (b : String) :
    ∀ n j : Nat,
      makeRetryableHttpCall (List.replicate n (HttpAttempt.response 429 (some b)))
          (1000 * 2 ^ j)
        = ((if n ≠ 0 ∧ 7 ≤ n + j then CallResult.success 429 b else CallResult.noResponse),
            (List.range (min n (6 - j))).map (fun k => 1000 * 2 ^ (j + k))) := by
  intro n
  induction n with
  | zero =>
    intro j
    simp [makeRetryableHttpCall]
  | succ n ih =>
    intro j
    rw [List.replicate_succ]
    show (if (429 : Nat) ≠ 200 ∧ (429 : Nat) ≠ rateLimitHttpCode then
          (CallResult.statusFail 429, [])
        else if maxBackoffMS < 1000 * 2 ^ j ∨ (429 : Nat) ≠ rateLimitHttpCode then
          (CallResult.success 429 b, [])
        else
          let r := makeRetryableHttpCall
            (List.replicate n (HttpAttempt.response 429 (some b)))
            (1000 * 2 ^ j * backoffFactor)
          (r.1, 1000 * 2 ^ j :: r.2)) = _
    rw [if_neg (by simp [rateLimitHttpCode])]
    by_cases hj : 6 ≤ j
    · rw [if_pos (Or.inl ((cap_iff j).mpr hj))]
      rw [if_pos ⟨Nat.succ_ne_zero n, by omega⟩]
      have h0 : 6 - j = 0 := by omega
      simp [h0]
    · rw [if_neg (by
        push_neg
        exact ⟨by simpa using (cap_iff j).not.mpr hj, by simp [rateLimitHttpCode]⟩)]
      have hb : 1000 * 2 ^ j * backoffFactor = 1000 * 2 ^ (j + 1) := by
        unfold backoffFactor
        rw [pow_succ]
        ring
      rw [hb, ih (j + 1)]
      rw [Prod.mk.injEq]
      refine ⟨?_, ?_⟩
      · have hiff : (¬n = 0 ∧ 7 ≤ n + (j + 1)) ↔ (¬n + 1 = 0 ∧ 7 ≤ n + 1 + j) := by
          omega
        exact if_congr hiff rfl rfl
      · have h7 : 6 - (j + 1) = 5 - j := by omega
        have h6 : 6 - j = (5 - j) + 1 := by omega
        rw [h7, h6, Nat.succ_min_succ, List.range_succ_eq_map]
        simp only [List.map_cons, List.map_map]
        rw [List.cons.injEq]
        refine ⟨by norm_num, ?_⟩
        refine List.map_congr_left ?_ |>.symm
        intro a _
        show 1000 * 2 ^ (j + a.succ) = 1000 * 2 ^ (j + 1 + a)
        have hexp : j + a.succ = j + 1 + a := by omega
        rw [hexp]

/-- Claim C2: for a run of N consecutive rate-limit (429) responses within one
retryable HTTP call, the wait before the k-th re-attempt is
`initialBackoffMS * backoffFactor ^ (k-1)` milliseconds (1000, 2000, 4000, ...),
no slept delay exceeds the 32000 ms cap, and once the computed delay exceeds
the cap the call returns on the next encountered rate-limit response by
reading the body, without sleeping again (exactly six sleeps ever happen). -/
theorem claim_C2_backoff_schedule (n : Nat) (b : String) :
    (makeRetryableHttpCall (List.replicate n (HttpAttempt.response 429 (some b)))
        initialBackoffMS).2
      = (List.range (min n 6)).map (fun k => initialBackoffMS * backoffFactor ^ k) ∧
    (∀ d ∈ (makeRetryableHttpCall (List.replicate n (HttpAttempt.response 429 (some b)))
        initialBackoffMS).2, d ≤ maxBackoffMS) ∧
    (7 ≤ n →
      makeRetryableHttpCall (List.replicate n (HttpAttempt.response 429 (some b)))
          initialBackoffMS
        = (CallResult.success 429 b,
            (List.range 6).map (fun k => initialBackoffMS * backoffFactor ^ k))) := by
  have h0 : initialBackoffMS = 1000 * 2 ^ (0 : Nat) := by norm_num [initialBackoffMS]
  have h := makeRetryableHttpCall_replicate429 b n 0
  refine ⟨?_, ?_, ?_⟩
  · rw [h0, h]
    simp [initialBackoffMS, backoffFactor]
  · intro d hd
    rw [h0, h] at hd
    simp only [List.mem_map, List.mem_range] at hd
    obtain ⟨k, hk, rfl⟩ := hd
    have hk5 : k ≤ 5 := by omega
    have h2 : 2 ^ (0 + k) ≤ 2 ^ 5 := Nat.pow_le_pow_right (by omega) (by omega)
    have h25 : (2 : Nat) ^ 5 = 32 := by norm_num
    unfold maxBackoffMS
    omega
  · intro hn
    rw [h0, h, if_pos ⟨by omega, by omega⟩]
    have hmin : min n (6 - 0) = 6 := by omega
    rw [hmin]
    simp [initialBackoffMS, backoffFactor]

theorem claim_C2_backoff_schedule_witness :
    makeRetryableHttpCall (List.replicate 7 (HttpAttempt.response 429 (some "B")))
        initialBackoffMS
      = (CallResult.success 429 "B", [1000, 2000, 4000, 8000, 16000, 32000]) := by
  have h := (claim_C2_backoff_schedule 7 "B").2.2 (by norm_num)
  rw [h]
  decide

/-- Claim C3: an HTTP response with a status code other than 200 and other
than 429 makes the fetch call fail immediately with an error — it is neither
retried nor backed off (no sleep happens) — while a 200 response reads the
body and returns it without error. -/
theorem claim_C3_fatal_on_unexpected_status (status : Nat) (rb : Option String)
    (b : String) (rest : List HttpAttempt) (backoffMs : Nat)
    (h200 : status ≠ 200) (h429 : status ≠ 429) :
    makeRetryableHttpCall (HttpAttempt.response status rb :: rest) backoffMs
      = (CallResult.statusFail status, []) ∧
    makeRetryableHttpCall (HttpAttempt.response 200 (some b) :: rest) backoffMs
      = (CallResult.success 200 b, []) := by
  constructor
  · simp [makeRetryableHttpCall, rateLimitHttpCode, h200, h429]
  · simp [makeRetryableHttpCall, rateLimitHttpCode]

theorem claim_C3_fatal_on_unexpected_status_witness :
    makeRetryableHttpCall [HttpAttempt.response 404 (some "nf")] 1000
      = (CallResult.statusFail 404, []) ∧
    makeRetryableHttpCall [HttpAttempt.response 200 (some "ok")] 1000
      = (CallResult.success 200 "ok", []) :=
  claim_C3_fatal_on_unexpected_status 404 (some "nf") "ok" [] 1000
    (by decide) (by decide)

lemma requestTrace_length (pages : List (PageSpec α)) :
    ∀ params afterLink,
      (requestTrace params afterLink pages).length = pages.length + 1 := by
  induction pages with
  | nil => intro params afterLink; simp [requestTrace]
  | cons p ps ih => intro params afterLink; simp [requestTrace, ih]

lemma setAfter_base (params : ReqParams) (afterLink : String) :
    (setAfter params afterLink).limit = params.limit ∧
    (setAfter params afterLink).since = params.since ∧
    (setAfter params afterLink).untilQ = params.untilQ := by
  unfold setAfter
  split <;> simp

lemma setAfter_after (params : ReqParams) (afterLink : String)
    (h : afterLink ≠ "") : (setAfter params afterLink).after = some afterLink := by
  unfold setAfter
  rw [if_neg h]

lemma requestTrace_after (pages : List (PageSpec α)) :
    ∀ (params : ReqParams) (afterLink : String),
      (∀ p ∈ pages, p.cursor ≠ "") →
      (requestTrace params afterLink pages).map (fun q => q.after)
        = (setAfter params afterLink).after
            :: pages.map (fun p => some p.cursor) := by
  induction pages with
  | nil => intro params afterLink _; simp [requestTrace]
  | cons p ps ih =>
    intro params afterLink hne
    have hp : p.cursor ≠ "" := hne p (by simp)
    simp only [requestTrace, List.map_cons]
    rw [ih (setAfter params afterLink) p.cursor (fun q hq => hne q (by simp [hq]))]
    rw [setAfter_after _ _ hp]

lemma requestTrace_fields (pages : List (PageSpec α)) :
    ∀ (params : ReqParams) (afterLink : String) (q : ReqParams),
      q ∈ requestTrace params afterLink pages →
      q.limit = params.limit ∧ q.since = params.since ∧ q.untilQ = params.untilQ := by
  induction pages with
  | nil =>
    intro params afterLink q hq
    simp [requestTrace] at hq
    rw [hq]
    exact setAfter_base params afterLink
  | cons p ps ih =>
    intro params afterLink q hq
    simp only [requestTrace, List.mem_cons] at hq
    rcases hq with hq | hq
    · rw [hq]
      exact setAfter_base params afterLink
    · have h := ih (setAfter params afterLink) p.cursor q hq
      have hb := setAfter_base params afterLink
      exact ⟨h.1.trans hb.1, h.2.1.trans hb.2.1, h.2.2.trans hb.2.2⟩

/-- A completed run: every non-final page decodes, re-serializes and yields a
nonempty cursor; the final page decodes and yields the empty cursor.  The
loop then returns the accumulated count, emits every page's records in
order, and issues exactly the `requestTrace` requests. -/
lemma getLogsLoop_run (marshal : α → Except String String) (ugly : String → String)
    (pages : List (PageSpec α)) (lastP : PageSpec α) :
    ∀ (params : ReqParams) (afterLink : String) (count : Nat),
      (∀ p ∈ pages, convertLogsToString marshal p.items = Except.ok p.evs ∧
          getResultsOffset p.hdrs = some p.cursor ∧ p.cursor ≠ "") →
      convertLogsToString marshal lastP.items = Except.ok lastP.evs →
      getResultsOffset lastP.hdrs = some "" →
      getLogsLoop marshal ugly
          ((pages ++ [lastP]).map (fun p => ReqOutcome.page p.items p.hdrs))
          params afterLink count
        = ⟨RunOutcome.ok (count + ((pages ++ [lastP]).map (fun p => p.evs.length)).sum),
            ((pages ++ [lastP]).map (fun p => p.evs.map ugly)).flatten,
            requestTrace params afterLink pages⟩ := by
  induction pages with
  | nil =>
    intro params afterLink count _ hconv hcur
    simp [getLogsLoop, hconv, hcur, requestTrace]
  | cons p ps ih =>
    intro params afterLink count hmid hconv hcur
    obtain ⟨hc, hoff, hne⟩ := hmid p (by simp)
    have hrec := ih (setAfter params afterLink) p.cursor (count + p.evs.length)
      (fun q hq => hmid q (by simp [hq])) hconv hcur
    simp only [List.cons_append, List.map_cons]
    rw [getLogsLoop, hc]
    simp only [hoff, hrec, if_neg hne, requestTrace, List.map_cons, List.flatten_cons,
      List.sum_cons, LoopResult.mk.injEq, RunOutcome.ok.injEq]
    refine ⟨by omega, by simp, trivial⟩

lemma foldl_append_acc (l : List String) :
    ∀ acc : List String, l.foldl (fun f m => f ++ [m]) acc = acc ++ l := by
  induction l with
  | nil => intro acc; simp
  | cons x xs ih => intro acc; simp [List.foldl_cons, ih]

lemma consumeMessages_eq (l : List String) : consumeMessages l = l := by
  unfold consumeMessages
  rw [foldl_append_acc]
  simp

/-- Claim C4: for every finite sequence of successfully decoded pages whose
final page's metadata yields no next cursor, `GetLogs` terminates and returns
a record count equal to the sum of the record counts of all pages it fetched,
with no error (and one request per page). -/
theorem claim_C4_termination_sum (marshal : α → Except String String)
    (ugly : String → String) (pages : List (PageSpec α)) (lastP : PageSpec α)
    (startTime endTime : String)
    (hmid : ∀ p ∈ pages, convertLogsToString marshal p.items = Except.ok p.evs ∧
        getResultsOffset p.hdrs = some p.cursor ∧ p.cursor ≠ "")
    (hconv : convertLogsToString marshal lastP.items = Except.ok lastP.evs)
    (hcur : getResultsOffset lastP.hdrs = some "") :
    (GetLogs marshal ugly
        ((pages ++ [lastP]).map (fun p => ReqOutcome.page p.items p.hdrs))
        startTime endTime).outcome
      = RunOutcome.ok (((pages ++ [lastP]).map (fun p => p.evs.length)).sum) ∧
    (GetLogs marshal ugly
        ((pages ++ [lastP]).map (fun p => ReqOutcome.page p.items p.hdrs))
        startTime endTime).requests.length = pages.length + 1 := by
  unfold GetLogs
  rw [getLogsLoop_run marshal ugly pages lastP _ _ _ hmid hconv hcur]
  exact ⟨by simp, by simp [requestTrace_length]⟩

theorem claim_C4_termination_sum_witness :
    (GetLogs (fun s : String => Except.ok s) id
        [ReqOutcome.page ["A", "B"]
          ["<https://d/a>; rel=\"self\", <https://d/b?after=x>; rel=\"next\""],
          ReqOutcome.page ["C"] []] "t0" "t1").outcome
      = RunOutcome.ok 3 ∧
    (GetLogs (fun s : String => Except.ok s) id
        [ReqOutcome.page ["A", "B"]
          ["<https://d/a>; rel=\"self\", <https://d/b?after=x>; rel=\"next\""],
          ReqOutcome.page ["C"] []] "t0" "t1").requests.length = 2 := by
  have h := claim_C4_termination_sum (fun s : String => Except.ok s) id
    [⟨["A", "B"], ["A", "B"],
      ["<https://d/a>; rel=\"self\", <https://d/b?after=x>; rel=\"next\""], "x"⟩]
    ⟨["C"], ["C"], [], ""⟩ "t0" "t1"
    (by intro p hp; simp at hp; rw [hp]; refine ⟨by rfl, by decide, by decide⟩)
    (by rfl) (by decide)
  simpa using h

/-- Claim C8: every follow-up page request of a run sends the cursor extracted
from the previous response's next link as the value of the `after` query
parameter (the first request sends no `after`), and every request carries the
unchanged `limit`, `since` and `until` parameters. -/
theorem claim_C8_after_param (marshal : α → Except String String)
    (ugly : String → String) (pages : List (PageSpec α)) (lastP : PageSpec α)
    (startTime endTime : String)
    (hmid : ∀ p ∈ pages, convertLogsToString marshal p.items = Except.ok p.evs ∧
        getResultsOffset p.hdrs = some p.cursor ∧ p.cursor ≠ "")
    (hconv : convertLogsToString marshal lastP.items = Except.ok lastP.evs)
    (hcur : getResultsOffset lastP.hdrs = some "") :
    (GetLogs marshal ugly
        ((pages ++ [lastP]).map (fun p => ReqOutcome.page p.items p.hdrs))
        startTime endTime).requests.map (fun q => q.after)
      = none :: pages.map (fun p => some p.cursor) ∧
    ∀ q ∈ (GetLogs marshal ugly
        ((pages ++ [lastP]).map (fun p => ReqOutcome.page p.items p.hdrs))
        startTime endTime).requests,
      q.limit = limitConst ∧ q.since = startTime ∧ q.untilQ = endTime := by
  unfold GetLogs
  rw [getLogsLoop_run marshal ugly pages lastP _ _ _ hmid hconv hcur]
  constructor
  · rw [requestTrace_after pages _ _ (fun p hp => (hmid p hp).2.2)]
    simp [setAfter]
  · intro q hq
    simpa using requestTrace_fields pages _ _ q hq

theorem claim_C8_after_param_witness :
    (GetLogs (fun s : String => Except.ok s) id
        [ReqOutcome.page ["A"]
          ["<https://d/a>; rel=\"self\", <https://d/b?after=tok>; rel=\"next\""],
          ReqOutcome.page [] []] "t0" "t1").requests.map (fun q => q.after)
      = [none, some "tok"] := by
  have h := (claim_C8_after_param (fun s : String => Except.ok s) id
    [⟨["A"], ["A"],
      ["<https://d/a>; rel=\"self\", <https://d/b?after=tok>; rel=\"next\""], "tok"⟩]
    ⟨[], [], [], ""⟩ "t0" "t1"
    (by intro p hp; simp at hp; rw [hp]; refine ⟨by rfl, by decide, by decide⟩)
    (by rfl) (by decide)).1
  simpa using h

/-- Claim C9: within one fetch cycle the records pushed onto the queue appear
in server-returned order — pages in fetch order and, inside each page, the
order of the response body's array — and the single consumer writes them to
the temp file in exactly that enqueue order. -/
theorem claim_C9_order_preserved (marshal : α → Except String String)
    (ugly : String → String) (pages : List (PageSpec α)) (lastP : PageSpec α)
    (startTime endTime : String)
    (hmid : ∀ p ∈ pages, convertLogsToString marshal p.items = Except.ok p.evs ∧
        getResultsOffset p.hdrs = some p.cursor ∧ p.cursor ≠ "")
    (hconv : convertLogsToString marshal lastP.items = Except.ok lastP.evs)
    (hcur : getResultsOffset lastP.hdrs = some "") :
    (GetLogs marshal ugly
        ((pages ++ [lastP]).map (fun p => ReqOutcome.page p.items p.hdrs))
        startTime endTime).emitted
      = ((pages ++ [lastP]).map (fun p => p.evs.map ugly)).flatten ∧
    consumeMessages (GetLogs marshal ugly
        ((pages ++ [lastP]).map (fun p => ReqOutcome.page p.items p.hdrs))
        startTime endTime).emitted
      = (GetLogs marshal ugly
        ((pages ++ [lastP]).map (fun p => ReqOutcome.page p.items p.hdrs))
        startTime endTime).emitted := by
  unfold GetLogs
  rw [getLogsLoop_run marshal ugly pages lastP _ _ _ hmid hconv hcur]
  exact ⟨rfl, consumeMessages_eq _⟩

theorem claim_C9_order_preserved_witness :
    (GetLogs (fun s : String => Except.ok s) id
        [ReqOutcome.page ["A", "B"]
          ["<https://d/a>; rel=\"self\", <https://d/b?after=x>; rel=\"next\""],
          ReqOutcome.page ["C"] []] "t0" "t1").emitted
      = ["A", "B", "C"] := by
  have h := (claim_C9_order_preserved (fun s : String => Except.ok s) id
    [⟨["A", "B"], ["A", "B"],
      ["<https://d/a>; rel=\"self\", <https://d/b?after=x>; rel=\"next\""], "x"⟩]
    ⟨["C"], ["C"], [], ""⟩ "t0" "t1"
    (by intro p hp; simp at hp; rw [hp]; refine ⟨by rfl, by decide, by decide⟩)
    (by rfl) (by decide)).1
  simpa using h

lemma getLogsLoop_requests_ne_nil (marshal : α → Except String String)
    (ugly : String → String) (oracle : List (ReqOutcome α)) (params : ReqParams)
    (afterLink : String) (count : Nat) :
    (getLogsLoop marshal ugly oracle params afterLink count).requests ≠ [] := by
  match oracle with
  | [] => simp [getLogsLoop]
  | ReqOutcome.httpErr m :: rest => simp [getLogsLoop]
  | ReqOutcome.badJson m :: rest => simp [getLogsLoop]
  | ReqOutcome.page items hdrs :: rest =>
    rw [getLogsLoop]
    rcases hconv : convertLogsToString marshal items with e | evs
    · simp
    · rcases hoff : getResultsOffset hdrs with _ | c
      · simp
      · by_cases hc : c = ""
        · simp [hc]
        · simp [hc]

/-- Claim C5: after a successfully decoded page, `GetLogs` issues another
page request if and only if the page's metadata yields a usable (nonempty)
next cursor — this holds even when the page carried zero records (`items`
and `evs` may be empty) — and pagination terminates when the extracted
cursor is empty. -/
theorem claim_C5_next_request_iff (marshal : α → Except String String)
    (ugly : String → String) (items : List α) (hdrs : List String)
    (evs : List String) (rest : List (ReqOutcome α)) (params : ReqParams)
    (afterLink : String) (count : Nat)
    (hconv : convertLogsToString marshal items = Except.ok evs) :
    (getResultsOffset hdrs = some "" →
      getLogsLoop marshal ugly (ReqOutcome.page items hdrs :: rest)
          params afterLink count
        = ⟨RunOutcome.ok (count + evs.length), evs.map ugly,
            [setAfter params afterLink]⟩) ∧
    (∀ c, getResultsOffset hdrs = some c → c ≠ "" →
      (getLogsLoop marshal ugly (ReqOutcome.page items hdrs :: rest)
          params afterLink count).requests
        = setAfter params afterLink ::
            (getLogsLoop marshal ugly rest (setAfter params afterLink) c
              (count + evs.length)).requests ∧
      (getLogsLoop marshal ugly rest (setAfter params afterLink) c
          (count + evs.length)).requests ≠ []) := by
  constructor
  · intro hoff
    rw [getLogsLoop, hconv]
    simp [hoff]
  · intro c hoff hc
    refine ⟨?_, getLogsLoop_requests_ne_nil marshal ugly rest _ c _⟩
    rw [getLogsLoop, hconv]
    simp [hoff, hc]

theorem claim_C5_next_request_iff_witness :
    getLogsLoop (fun s : String => Except.ok s) id
        [ReqOutcome.page ([] : List String) ["<https://d/a>; rel=\"self\""]]
        ⟨"1000", "t0", "t1", none⟩ "" 0
      = ⟨RunOutcome.ok 0, [], [⟨"1000", "t0", "t1", none⟩]⟩ := by
  have h := (claim_C5_next_request_iff (fun s : String => Except.ok s) id
    ([] : List String) ["<https://d/a>; rel=\"self\""] [] []
    ⟨"1000", "t0", "t1", none⟩ "" 0 (by rfl)).1 (by decide)
  simpa [setAfter] using h

lemma getLogsLoop_fail_count (marshal : α → Except String String)
    (ugly : String → String) :
    ∀ (oracle : List (ReqOutcome α)) (params : ReqParams) (afterLink : String)
      (count : Nat) (c : Int) (m : String),
      (getLogsLoop marshal ugly oracle params afterLink count).outcome
        = RunOutcome.fail c m → c = -1 := by
  intro oracle
  induction oracle with
  | nil =>
    intro params afterLink count c m h
    simp [getLogsLoop] at h
  | cons o rest ih =>
    intro params afterLink count c m h
    cases o with
    | httpErr m2 =>
      simp [getLogsLoop] at h
      omega
    | badJson m2 =>
      simp [getLogsLoop] at h
      omega
    | page items hdrs =>
      rw [getLogsLoop] at h
      rcases hconv : convertLogsToString marshal items with e | evs <;> rw [hconv] at h <;>
        dsimp only at h
      · simp at h
        omega
      · rcases hoff : getResultsOffset hdrs with _ | c2 <;> rw [hoff] at h <;> dsimp only at h
        · simp at h
        · by_cases hc : c2 = ""
          · rw [if_pos hc] at h
            simp at h
          · rw [if_neg hc] at h
            simp at h
            exact ih _ _ _ _ _ h

/-- Claim C10: whenever `GetLogs` returns with an error — request failure,
body-unmarshal failure, or record re-serialization failure on any page — the
returned record count is exactly `-1`, never a partial count. -/
theorem claim_C10_error_count_minus_one (marshal : α → Except String String)
    (ugly : String → String) (oracle : List (ReqOutcome α))
    (startTime endTime : String) (c : Int) (m : String)
    (h : (GetLogs marshal ugly oracle startTime endTime).outcome
      = RunOutcome.fail c m) : c = -1 :=
  getLogsLoop_fail_count marshal ugly oracle _ _ _ c m h

theorem claim_C10_error_count_minus_one_witness :
    (GetLogs (fun s : String => Except.ok s) id
        [ReqOutcome.page ["A"]
          ["<https://d/a>; rel=\"self\", <https://d/b?after=x>; rel=\"next\""],
          ReqOutcome.httpErr "boom"] "t0" "t1").outcome
      = RunOutcome.fail (-1) "Error conducting request: boom" ∧
    (GetLogs (fun s : String => Except.ok s) id
        [ReqOutcome.page ["A"]
          ["<https://d/a>; rel=\"self\", <https://d/b?after=x>; rel=\"next\""],
          ReqOutcome.httpErr "boom"] "t0" "t1").emitted = ["A"] ∧
    (-1 : Int) = -1 := by
  have hrun : (GetLogs (fun s : String => Except.ok s) id
      [ReqOutcome.page ["A"]
        ["<https://d/a>; rel=\"self\", <https://d/b?after=x>; rel=\"next\""],
        ReqOutcome.httpErr "boom"] "t0" "t1").outcome
      = RunOutcome.fail (-1) "Error conducting request: boom" := by decide
  refine ⟨hrun, by decide,
    claim_C10_error_count_minus_one (fun s : String => Except.ok s) id _ "t0" "t1"
      (-1) "Error conducting request: boom" hrun⟩

/-- Claim C6 is false on the code: cursor extraction does not survive every
malformed link payload.  A Link value that mentions "next" and splits into
exactly two comma-separated parts whose second part does not match the
`<...>; rel="next"` pattern — for instance the next entry listed before the
self entry — makes `FindStringSubmatch` return a nil slice, and `match[1]`
then panics with an index-out-of-range instead of returning the empty
cursor.  (`none` is the model's panic value.)  A well-formed self-only link
and an absent header are survived, as the spec says. -/
theorem claim_C6_malformed_link_panics :
    getResultsOffset
      ["<https://d.okta.com/api/v1/logs?after=x>; rel=\"next\", <https://d.okta.com/api/v1/logs>; rel=\"self\""]
      = none ∧
    getResultsOffset [] = some "" ∧
    getResultsOffset ["<https://d.okta.com/api/v1/logs>; rel=\"self\""] = some "" := by
  decide

/-- Claim C1: in a poll cycle with records whose Output Sink write fails, the
process dies before `state.Save`, so the persisted checkpoint still holds the
previous successful cycle's timestamp; the checkpoint is persisted as the
cycle's captured upper bound exactly when the records were drained, the sink
write succeeded and the temp file was removed. -/
theorem claim_C1_checkpoint_only_after_flush (marshal : α → Except String String)
    (ugly : String → String) (checkpoint : String) (env : CycleEnv α) (n : Nat)
    (hrun : (GetLogs marshal ugly env.oracle checkpoint env.now).outcome
      = RunOutcome.ok n) (hn : 0 < n) :
    (env.sinkWriteOk = false →
      pollCycle marshal ugly checkpoint env
        = ⟨checkpoint, true, true, true, false, false⟩) ∧
    (env.sinkWriteOk = true → env.removeOk = true →
      pollCycle marshal ugly checkpoint env
        = ⟨env.now, false, true, true, true, true⟩) := by
  unfold pollCycle
  dsimp only
  rw [hrun]
  dsimp only
  constructor
  · intro hsink
    simp [hn, hsink]
  · intro hsink hrem
    simp [hn, hsink, hrem]

theorem claim_C1_checkpoint_only_after_flush_witness :
    pollCycle (fun s : String => Except.ok s) id "t0"
        (CycleEnv.mk "t1" [ReqOutcome.page ["E"] []] false true)
      = ⟨"t0", true, true, true, false, false⟩ := by
  exact (claim_C1_checkpoint_only_after_flush (fun s : String => Except.ok s) id
    "t0" (CycleEnv.mk "t1" [ReqOutcome.page ["E"] []] false true) 1
    (by decide) (by decide)).1 rfl

/-- Claim C7: a poll cycle whose fetch returns zero records skips the drain
wait, the temp-file rotation, the sink write and the temp-file removal, yet
still persists the checkpoint as the `now` captured at fetch start. -/
theorem claim_C7_zero_event_cycle (marshal : α → Except String String)
    (ugly : String → String) (checkpoint : String) (env : CycleEnv α)
    (hrun : (GetLogs marshal ugly env.oracle checkpoint env.now).outcome
      = RunOutcome.ok 0) :
    pollCycle marshal ugly checkpoint env
      = ⟨env.now, false, false, false, false, false⟩ := by
  unfold pollCycle
  dsimp only
  rw [hrun]
  dsimp only
  simp

theorem claim_C7_zero_event_cycle_witness :
    pollCycle (fun s : String => Except.ok s) id "t0"
        (CycleEnv.mk "t1" [ReqOutcome.page ([] : List String) []] true true)
      = ⟨"t1", false, false, false, false, false⟩ :=
  claim_C7_zero_event_cycle (fun s : String => Except.ok s) id "t0"
    (CycleEnv.mk "t1" [ReqOutcome.page ([] : List String) []] true true)
    (by decide)

end OktaCollector
